import Mathlib

/-
Shallow embedding of the `bevy_symbios_ground` crate (terrain mesh generation
and splat-texture packing) and proofs about it.

Modelling conventions:
- `f32` values (heights, scale, positions, normals, UVs) are modelled as exact
  reals `ℝ`; `f32::EPSILON = 2^-23` is modelled exactly.
- `usize` and `u32` index arithmetic is modelled on `ℕ`.  Every index the mesher
  produces is `z*w+x (+1)` style arithmetic on `usize` (exact, since all values
  are bounded by `width*height = data.len()`); the final `as u32` cast is
  lossless for every mesh whose vertices are addressable by `u32` indices at
  all, so it is modelled as the identity.
- The `HeightMap` / `WeightMap` types live in the external `symbios-ground`
  crate; they are modelled from their interface as stated in the spec
  (bounds-checked `get`, `width`/`height`/`scale`, row-major data with
  `data.len() == width*height`).
- Bevy `Image` is modelled by the fields the crate reads or writes
  (dimensions, optional byte data, format, sampler address modes), and the
  `sync_splat_texture` ECS system as an explicit state transformer on
  `(GroundMaterialSettings, Option Image)`, where the `Option` is the result
  of looking the texture handle up in `Assets<Image>`.
-/

/-- Three-component vector of reals, modelling glam `Vec3` / `[f32; 3]`. -/
structure Vec3 where
  x : ℝ
  y : ℝ
  z : ℝ

/-- Componentwise addition (`Vec3 + Vec3`, used by `+=` accumulation). -/
def Vec3.add (a b : Vec3) : Vec3 :=
  ⟨a.x + b.x, a.y + b.y, a.z + b.z⟩

/-- Componentwise subtraction (`Vec3 - Vec3`). -/
def Vec3.sub (a b : Vec3) : Vec3 :=
  ⟨a.x - b.x, a.y - b.y, a.z - b.z⟩

/-- Cross product, as in glam `Vec3::cross`. -/
def Vec3.cross (a b : Vec3) : Vec3 :=
  ⟨a.y * b.z - a.z * b.y, a.z * b.x - a.x * b.z, a.x * b.y - a.y * b.x⟩

/-- Euclidean length, as in glam `Vec3::length`. -/
noncomputable def Vec3.length (a : Vec3) : ℝ :=
  Real.sqrt (a.x ^ 2 + a.y ^ 2 + a.z ^ 2)

/-- Division of a vector by a scalar (`n / len`). -/
noncomputable def Vec3.divScalar (a : Vec3) (s : ℝ) : Vec3 :=
  ⟨a.x / s, a.y / s, a.z / s⟩

/-- The machine epsilon of `f32`: `f32::EPSILON = 2^-23`. -/
noncomputable def f32Epsilon : ℝ := 1 / 2 ^ 23

/-- The normalize-or-default-up step shared by both normal strategies in
`mesher.rs`: `if len > f32::EPSILON { n / len } else { [0., 1., 0.] }`. -/
noncomputable def normalizeOrUp (n : Vec3) : Vec3 :=
  if f32Epsilon < n.length then n.divScalar n.length else ⟨0, 1, 0⟩

/-- Height field from the external `symbios-ground` crate, modelled from its
interface in the spec: grid dimensions, uniform world scale, and the
bounds-checked accessor `get(x, z)` (modelled as a total function; the mesher
only ever calls it with in-range indices). -/
structure HeightMap where
  width : ℕ
  height : ℕ
  scale : ℝ
  get : ℕ → ℕ → ℝ

/-- Per-vertex normal algorithm selector (`NormalMethod` in `mesher.rs`). -/
inductive NormalMethod where
  | AreaWeighted
  | Sobel
deriving DecidableEq

/-- Mesh-builder configuration (`HeightMapMeshBuilder` in `mesher.rs`). -/
structure HeightMapMeshBuilder where
  uv_tile_size : ℝ
  normal_method : NormalMethod

/-- The vertex-position pass of `HeightMapMeshBuilder::build`: for `z` in
`0..h`, for `x` in `0..w`, push `[x*s, heightmap.get(x, z), z*s]`. -/
def buildPositions (hm : HeightMap) : List Vec3 :=
  (List.range hm.height).flatMap fun (z : ℕ) =>
    (List.range hm.width).map fun (x : ℕ) =>
      ⟨(x : ℝ) * hm.scale, hm.get x z, (z : ℝ) * hm.scale⟩

/-- The UV pass of `HeightMapMeshBuilder::build`, emitted in the same loop as
positions: `[world_x / uv_tile_size, world_z / uv_tile_size]`. -/
noncomputable def buildUVs (b : HeightMapMeshBuilder) (hm : HeightMap) : List (ℝ × ℝ) :=
  (List.range hm.height).flatMap fun (z : ℕ) =>
    (List.range hm.width).map fun (x : ℕ) =>
      ((x : ℝ) * hm.scale / b.uv_tile_size, (z : ℝ) * hm.scale / b.uv_tile_size)

/-- The six indices one quad pushes in `HeightMapMeshBuilder::build`, in push
order `tl, bl, tr, tr, bl, br` with `tl = z*w+x`, `tr = z*w+x+1`,
`bl = (z+1)*w+x`, `br = (z+1)*w+x+1`. -/
def quadIndices (w x z : ℕ) : List ℕ :=
  [z * w + x, (z + 1) * w + x, z * w + x + 1,
   z * w + x + 1, (z + 1) * w + x, (z + 1) * w + x + 1]

/-- The triangle-index pass of `HeightMapMeshBuilder::build`: for `z` in
`0..h-1`, for `x` in `0..w-1`, push the six indices of quad `(x, z)`. -/
def buildIndices (w h : ℕ) : List ℕ :=
  (List.range (h - 1)).flatMap fun z =>
    (List.range (w - 1)).flatMap fun x => quadIndices w x z

/-- Rust `v.clamp(0, n-1)` followed by `as usize`, as used by the Sobel
sampler (for `n ≥ 1`, as always holds at its call sites). -/
def clampIdx (v : ℤ) (n : ℕ) : ℕ :=
  (min (max v 0) ((n : ℤ) - 1)).toNat

/-- The clamped neighborhood sampler closure in `compute_normals_sobel`. -/
def sample (hm : HeightMap) (xi zi : ℕ) (dx dz : ℤ) : ℝ :=
  hm.get (clampIdx ((xi : ℤ) + dx) hm.width) (clampIdx ((zi : ℤ) + dz) hm.height)

/-- The `gx` expression of `compute_normals_sobel`, exactly as written in the
source. -/
def sobelGx (hm : HeightMap) (xi zi : ℕ) : ℝ :=
  -sample hm xi zi (-1) (-1) + sample hm xi zi 1 (-1)
    + -2 * sample hm xi zi (-1) 0 + 2 * sample hm xi zi 1 0
    + -sample hm xi zi (-1) 1 + sample hm xi zi 1 1

/-- The `gz` expression of `compute_normals_sobel`, exactly as written in the
source. -/
def sobelGz (hm : HeightMap) (xi zi : ℕ) : ℝ :=
  -sample hm xi zi (-1) (-1) - 2 * sample hm xi zi 0 (-1)
    - sample hm xi zi 1 (-1)
    + sample hm xi zi (-1) 1 + 2 * sample hm xi zi 0 1
    + sample hm xi zi 1 1

/-- Embedding of `compute_normals_sobel` from `mesher.rs`: for every grid
vertex in row-major order, normalize `(-gx, 8*scale, -gz)` with the
default-up fallback. -/
noncomputable def compute_normals_sobel (hm : HeightMap) : List Vec3 :=
  (List.range hm.height).flatMap fun zi =>
    (List.range hm.width).map fun xi =>
      normalizeOrUp ⟨-sobelGx hm xi zi, 8 * hm.scale, -sobelGz hm xi zi⟩

/-- Rust `indices.chunks_exact(3)` specialised to the use in `build`: split a
flat index list into consecutive triangles, dropping any remainder. -/
def chunks3 : List ℕ → List (ℕ × ℕ × ℕ)
  | i0 :: i1 :: i2 :: rest => (i0, i1, i2) :: chunks3 rest
  | _ => []

/-- One step of the area-weighted accumulation loop in
`HeightMapMeshBuilder::build`: compute the face normal
`(p1 - p0) × (p2 - p0)` of one triangle and add it into the accumulators of
its three vertices. -/
def addFaceNormal (positions : List Vec3) (acc : List Vec3) (t : ℕ × ℕ × ℕ) : List Vec3 :=
  let p0 := positions.getD t.1 ⟨0, 0, 0⟩
  let p1 := positions.getD t.2.1 ⟨0, 0, 0⟩
  let p2 := positions.getD t.2.2 ⟨0, 0, 0⟩
  let fn := Vec3.cross (Vec3.sub p1 p0) (Vec3.sub p2 p0)
  let a1 := acc.set t.1 (Vec3.add (acc.getD t.1 ⟨0, 0, 0⟩) fn)
  let a2 := a1.set t.2.1 (Vec3.add (a1.getD t.2.1 ⟨0, 0, 0⟩) fn)
  a2.set t.2.2 (Vec3.add (a2.getD t.2.2 ⟨0, 0, 0⟩) fn)

/-- The accumulator vector of the `AreaWeighted` branch after processing all
triangles, starting from `vec![Vec3::ZERO; vertex_count]`. -/
def accAreaWeighted (hm : HeightMap) : List Vec3 :=
  (chunks3 (buildIndices hm.width hm.height)).foldl
    (addFaceNormal (buildPositions hm))
    (List.replicate (hm.width * hm.height) ⟨0, 0, 0⟩)

/-- The `AreaWeighted` normals of `HeightMapMeshBuilder::build`: normalize each
vertex accumulator with the default-up fallback. -/
noncomputable def normalsAreaWeighted (hm : HeightMap) : List Vec3 :=
  (accAreaWeighted hm).map normalizeOrUp

/-- The mesh data `build` produces: the three vertex attributes plus the `u32`
triangle-list indices. -/
structure Mesh where
  positions : List Vec3
  normals : List Vec3
  uvs : List (ℝ × ℝ)
  indices : List ℕ

/-- Embedding of `HeightMapMeshBuilder::build`.  The source asserts
`width >= 2 && height >= 2` and panics otherwise; the panic is modelled as
`none`. -/
noncomputable def HeightMapMeshBuilder.build (b : HeightMapMeshBuilder) (hm : HeightMap) :
    Option Mesh :=
  if 2 ≤ hm.width ∧ 2 ≤ hm.height then
    some
      { positions := buildPositions hm
        normals :=
          match b.normal_method with
          | NormalMethod.AreaWeighted => normalsAreaWeighted hm
          | NormalMethod.Sobel => compute_normals_sobel hm
        uvs := buildUVs b hm
        indices := buildIndices hm.width hm.height }
  else
    none

/-- One RGBA pixel (`[u8; 4]`), channel order R, G, B, A. -/
abbrev Pixel := Fin 4 → ℕ

/-- Weight field from the external `symbios-ground` crate, modelled from its
interface in the spec: row-major `[u8;4]` pixels with
`data.len() == width * height` (invariant upheld by the external crate). -/
structure WeightMap where
  width : ℕ
  height : ℕ
  data : List Pixel
  hdata : data.length = width * height

/-- The byte-flattening step shared by `splat_to_image` and
`sync_splat_texture`: `data.iter().flat_map(|pixel| pixel.iter().copied())`. -/
def splatPack (wm : WeightMap) : List ℕ :=
  wm.data.flatMap fun p => [p 0, p 1, p 2, p 3]

/-- Sampler address mode of a Bevy image (`ImageAddressMode`). -/
inductive ImageAddressMode where
  | ClampToEdge
  | Repeat
  | MirrorRepeat
deriving DecidableEq

/-- Texture format tag: the one format the crate uses, plus a catch-all. -/
inductive TextureFormat where
  | Rgba8Unorm
  | Other
deriving DecidableEq

/-- Bevy `Image`, restricted to the fields this crate reads or writes:
texture-descriptor dimensions, optional raw byte data, format, and the two
sampler address modes. -/
structure Image where
  width : ℕ
  height : ℕ
  data : Option (List ℕ)
  format : TextureFormat
  address_mode_u : ImageAddressMode
  address_mode_v : ImageAddressMode

/-- Embedding of `splat_to_image` from `splat.rs`: flatten the weight map into
raw RGBA8 bytes and set the sampler address modes the source sets. -/
def splat_to_image (wm : WeightMap) : Image :=
  { width := wm.width
    height := wm.height
    data := some (splatPack wm)
    format := TextureFormat.Rgba8Unorm
    address_mode_u := ImageAddressMode.ClampToEdge
    address_mode_v := ImageAddressMode.ClampToEdge }

/-- The `GroundMaterialSettings` resource: current weight map plus dirty flag. -/
structure GroundMaterialSettings where
  weight_map : WeightMap
  dirty : Bool

/-- Embedding of the `sync_splat_texture` system from `splat.rs` as a state
transformer.  `images` is the result of `images.get_mut(&splat_texture.handle)`:
`none` when the handle is not (yet) present in `Assets<Image>`.  Mirrors the
source statement-for-statement, including the order of the dirty-flag store
and the handle lookup. -/
def sync_splat_texture (settings : GroundMaterialSettings) (images : Option Image) :
    GroundMaterialSettings × Option Image :=
  if settings.dirty = false then
    (settings, images)
  else
    let settings2 : GroundMaterialSettings := { settings with dirty := false }
    match images with
    | none => (settings2, none)
    | some image =>
      let wm := settings2.weight_map
      let expected := wm.width * wm.height * 4
      let image2 :=
        if (image.data.map List.length).getD 0 ≠ expected then
          { image with width := wm.width, height := wm.height }
        else
          image
      (settings2, some { image2 with data := some (splatPack wm) })

/-- Length of a `flatMap` whose blocks all have the same length `m`. -/
theorem length_flatMap_const {α β : Type} (f : α → List β) (m : ℕ) :
    ∀ l : List α, (∀ a ∈ l, (f a).length = m) → (l.flatMap f).length = m * l.length := by
  intro l
  induction l with
  | nil => simp
  | cons a l ih =>
    intro hf
    simp only [List.flatMap_cons, List.length_append, List.length_cons]
    rw [ih fun b hb => hf b (List.mem_cons_of_mem a hb), hf a (List.mem_cons_self a l)]
    ring

/-- Indexing into a `flatMap` whose blocks all have the same length `m`:
position `m*i + c` lands at offset `c` of block `i`. -/
theorem getElem?_flatMap_const {α β : Type} (f : α → List β) (m : ℕ) (d : α) :
    ∀ (l : List α) (i c : ℕ), (∀ a ∈ l, (f a).length = m) → i < l.length → c < m →
      (l.flatMap f)[m * i + c]? = (f (l.getD i d))[c]? := by
  intro l
  induction l with
  | nil =>
    intro i c _ hi _
    simp at hi
  | cons a l ih =>
    intro i c hf hi hc
    have hlen : (f a).length = m := hf a (List.mem_cons_self a l)
    cases i with
    | zero =>
      simp only [Nat.mul_zero, Nat.zero_add, List.flatMap_cons, List.getD_cons_zero]
      rw [List.getElem?_append]
      simp [hlen, hc]
    | succ i =>
      have hidx : m * (i + 1) + c = (f a).length + (m * i + c) := by
        rw [hlen]; ring
      simp only [List.flatMap_cons, List.getD_cons_succ]
      rw [hidx, List.getElem?_append]
      rw [if_neg (by omega)]
      simp only [Nat.add_sub_cancel_left]
      exact ih i c (fun b hb => hf b (List.mem_cons_of_mem a hb)) (by simpa using hi) hc

/-- Row-major index bound: `z*w + x < w*h` for in-range `x`, `z`. -/
theorem rowMajor_lt {w h x z : ℕ} (hx : x < w) (hz : z < h) : z * w + x < w * h := by
  have h1 : (z + 1) * w ≤ h * w := mul_le_mul_right' (by omega) w
  have h2 : (z + 1) * w = z * w + w := by ring
  have h3 : h * w = w * h := by ring
  linarith

/-- Length of the row-major grid traversal common to positions, UVs and Sobel
normals. -/
theorem grid_length {β : Type} (g : ℕ → ℕ → β) (w h : ℕ) :
    ((List.range h).flatMap fun zi => (List.range w).map fun xi => g xi zi).length = w * h := by
  rw [length_flatMap_const (fun zi => (List.range w).map fun xi => g xi zi) w (List.range h)
      (by intro a _; simp)]
  simp

/-- Indexing the row-major grid traversal: entry `w*z + x` is `g x z`. -/
theorem grid_getElem {β : Type} (g : ℕ → ℕ → β) (w h x z : ℕ) (hx : x < w) (hz : z < h) :
    ((List.range h).flatMap fun zi => (List.range w).map fun xi => g xi zi)[w * z + x]? =
      some (g x z) := by
  rw [getElem?_flatMap_const (fun zi => (List.range w).map fun xi => g xi zi) w 0 (List.range h)
      z x (by intro a _; simp) (by simpa using hz) hx]
  have hzd : (List.range h).getD z 0 = z := by
    rw [List.getD_eq_getElem _ _ (by simpa using hz)]
    simp
  rw [hzd]
  simp [List.getElem?_map, List.getElem?_range, hx]

/-- Each quad contributes exactly six indices. -/
theorem quadIndices_length (w x z : ℕ) : (quadIndices w x z).length = 6 := rfl

/-- One row of quads contributes `6*(w-1)` indices. -/
theorem quadRow_length (w : ℕ) (z : ℕ) :
    ((List.range (w - 1)).flatMap fun x => quadIndices w x z).length = 6 * (w - 1) := by
  rw [length_flatMap_const (fun x => quadIndices w x z) 6 (List.range (w - 1))
      fun a _ => rfl]
  simp

/-- Total index count of the mesher: `(w-1)*(h-1)*6`. -/
theorem buildIndices_length (w h : ℕ) :
    (buildIndices w h).length = (w - 1) * (h - 1) * 6 := by
  rw [buildIndices,
      length_flatMap_const _ (6 * (w - 1)) (List.range (h - 1)) fun z _ => quadRow_length w z]
  simp [List.length_range]
  ring

/-- Indexing the flat index list: entry `(z*(w-1)+x)*6 + k` is entry `k` of
quad `(x, z)`, for every quad in range and `k < 6`. -/
theorem buildIndices_getElem (w h x z k : ℕ) (hx : x < w - 1) (hz : z < h - 1) (hk : k < 6) :
    (buildIndices w h)[(z * (w - 1) + x) * 6 + k]? = (quadIndices w x z)[k]? := by
  have hidx : (z * (w - 1) + x) * 6 + k = 6 * (w - 1) * z + (6 * x + k) := by ring
  rw [buildIndices, hidx,
      getElem?_flatMap_const _ (6 * (w - 1)) 0 (List.range (h - 1)) z (6 * x + k)
        (fun a _ => quadRow_length w a) (by simpa using hz) (by omega)]
  have hzd : (List.range (h - 1)).getD z 0 = z := by
    rw [List.getD_eq_getElem _ _ (by simpa using hz)]
    simp
  rw [hzd,
      getElem?_flatMap_const (fun x2 => quadIndices w x2 z) 6 0 (List.range (w - 1)) x k
        (fun b _ => rfl) (by simpa using hx) hk]
  have hxd : (List.range (w - 1)).getD x 0 = x := by
    rw [List.getD_eq_getElem _ _ (by simpa using hx)]
    simp
  rw [hxd]

/-- Every index the mesher emits addresses a valid vertex. -/
theorem buildIndices_lt (w h : ℕ) : ∀ i ∈ buildIndices w h, i < w * h := by
  intro i hi
  rw [buildIndices] at hi
  obtain ⟨z, hz, hi⟩ := List.mem_flatMap.mp hi
  obtain ⟨x, hx, hi⟩ := List.mem_flatMap.mp hi
  rw [List.mem_range] at hz hx
  have hx2 : x + 2 ≤ w := by omega
  have hz2 : z + 2 ≤ h := by omega
  have h1 : (z + 2) * w ≤ h * w := mul_le_mul_right' hz2 w
  have h2 : (z + 2) * w = (z + 1) * w + w := by ring
  have h3 : h * w = w * h := by ring
  have htl : z * w ≤ (z + 1) * w := mul_le_mul_right' (by omega) w
  have hbr : (z + 1) * w + x + 1 < w * h := by linarith
  simp only [quadIndices, List.mem_cons, List.not_mem_nil, or_false] at hi
  rcases hi with rfl | rfl | rfl | rfl | rfl | rfl <;> linarith

/-- The clamped sampler index is always in bounds (for a nonempty axis). -/
theorem clampIdx_lt (v : ℤ) (n : ℕ) (hn : 1 ≤ n) : clampIdx v n < n := by
  have h1 : min (max v 0) ((n : ℤ) - 1) ≤ (n : ℤ) - 1 := min_le_right _ _
  have h2 : 0 ≤ min (max v 0) ((n : ℤ) - 1) := by
    apply le_min (le_max_right v 0)
    omega
  rw [clampIdx]
  omega

/-- The `f32` machine epsilon is positive. -/
theorem f32Epsilon_pos : 0 < f32Epsilon := by
  rw [f32Epsilon]
  norm_num

/-- Dichotomy of the shared normalization step: above epsilon the vector is
divided by its length, otherwise the default up vector is produced. -/
theorem normalizeOrUp_cases (v : Vec3) :
    (f32Epsilon < v.length ∧ normalizeOrUp v = v.divScalar v.length) ∨
      (v.length ≤ f32Epsilon ∧ normalizeOrUp v = ⟨0, 1, 0⟩) := by
  by_cases h : f32Epsilon < v.length
  · exact Or.inl ⟨h, by rw [normalizeOrUp, if_pos h]⟩
  · exact Or.inr ⟨le_of_not_lt h, by rw [normalizeOrUp, if_neg h]⟩

/-- Normalization keeps a strictly positive y-component. -/
theorem normalizeOrUp_y_pos (v : Vec3) (hy : 0 < v.y) : 0 < (normalizeOrUp v).y := by
  rcases normalizeOrUp_cases v with ⟨h, heq⟩ | ⟨h, heq⟩
  · rw [heq]
    have hlen : 0 < v.length := lt_trans f32Epsilon_pos h
    exact div_pos hy hlen
  · rw [heq]
    norm_num

/-- One accumulation step preserves the accumulator length. -/
theorem addFaceNormal_length (positions acc : List Vec3) (t : ℕ × ℕ × ℕ) :
    (addFaceNormal positions acc t).length = acc.length := by
  simp [addFaceNormal]

/-- The whole accumulation loop preserves the accumulator length. -/
theorem foldl_addFaceNormal_length (positions : List Vec3) :
    ∀ (tris : List (ℕ × ℕ × ℕ)) (acc : List Vec3),
      (tris.foldl (addFaceNormal positions) acc).length = acc.length := by
  intro tris
  induction tris with
  | nil => intro acc; rfl
  | cons t tris ih =>
    intro acc
    rw [List.foldl_cons, ih, addFaceNormal_length]

/-- The area-weighted accumulator has one slot per vertex. -/
theorem accAreaWeighted_length (hm : HeightMap) :
    (accAreaWeighted hm).length = hm.width * hm.height := by
  rw [accAreaWeighted, foldl_addFaceNormal_length]
  simp

/-- The area-weighted strategy emits one normal per vertex. -/
theorem normalsAreaWeighted_length (hm : HeightMap) :
    (normalsAreaWeighted hm).length = hm.width * hm.height := by
  rw [normalsAreaWeighted, List.length_map, accAreaWeighted_length]

/-- The Sobel strategy emits one normal per vertex. -/
theorem compute_normals_sobel_length (hm : HeightMap) :
    (compute_normals_sobel hm).length = hm.width * hm.height := by
  rw [compute_normals_sobel]
  exact grid_length (fun xi zi =>
    normalizeOrUp ⟨-sobelGx hm xi zi, 8 * hm.scale, -sobelGz hm xi zi⟩) hm.width hm.height

/-- Every area-weighted normal is the normalization of some accumulator. -/
theorem mem_normalsAreaWeighted (hm : HeightMap) :
    ∀ n ∈ normalsAreaWeighted hm, ∃ v : Vec3, n = normalizeOrUp v := by
  intro n hn
  rw [normalsAreaWeighted] at hn
  obtain ⟨v, _, hv⟩ := List.mem_map.mp hn
  exact ⟨v, hv.symm⟩

/-- Every Sobel normal is the normalization of the gradient vector of its grid
vertex. -/
theorem mem_compute_normals_sobel (hm : HeightMap) :
    ∀ n ∈ compute_normals_sobel hm, ∃ xi zi : ℕ,
      n = normalizeOrUp ⟨-sobelGx hm xi zi, 8 * hm.scale, -sobelGz hm xi zi⟩ := by
  intro n hn
  rw [compute_normals_sobel] at hn
  obtain ⟨zi, _, hn⟩ := List.mem_flatMap.mp hn
  obtain ⟨xi, _, hn⟩ := List.mem_map.mp hn
  exact ⟨xi, zi, hn.symm⟩

/-- The position pass emits one vertex per grid cell. -/
theorem buildPositions_length (hm : HeightMap) :
    (buildPositions hm).length = hm.width * hm.height := by
  rw [buildPositions]
  exact grid_length
    (fun x z => (⟨(x : ℝ) * hm.scale, hm.get x z, (z : ℝ) * hm.scale⟩ : Vec3))
    hm.width hm.height

/-- The UV pass emits one UV per grid cell. -/
theorem buildUVs_length (b : HeightMapMeshBuilder) (hm : HeightMap) :
    (buildUVs b hm).length = hm.width * hm.height := by
  rw [buildUVs]
  exact grid_length
    (fun x z => ((x : ℝ) * hm.scale / b.uv_tile_size, (z : ℝ) * hm.scale / b.uv_tile_size))
    hm.width hm.height

/-- Position of the row-major vertex `w*z + x`. -/
theorem buildPositions_getElem (hm : HeightMap) (x z : ℕ)
    (hx : x < hm.width) (hz : z < hm.height) :
    (buildPositions hm)[hm.width * z + x]? =
      some ⟨(x : ℝ) * hm.scale, hm.get x z, (z : ℝ) * hm.scale⟩ := by
  rw [buildPositions]
  exact grid_getElem
    (fun x z => (⟨(x : ℝ) * hm.scale, hm.get x z, (z : ℝ) * hm.scale⟩ : Vec3))
    hm.width hm.height x z hx hz

/-- UV of the row-major vertex `w*z + x`. -/
theorem buildUVs_getElem (b : HeightMapMeshBuilder) (hm : HeightMap) (x z : ℕ)
    (hx : x < hm.width) (hz : z < hm.height) :
    (buildUVs b hm)[hm.width * z + x]? =
      some ((x : ℝ) * hm.scale / b.uv_tile_size, (z : ℝ) * hm.scale / b.uv_tile_size) := by
  rw [buildUVs]
  exact grid_getElem
    (fun x z => ((x : ℝ) * hm.scale / b.uv_tile_size, (z : ℝ) * hm.scale / b.uv_tile_size))
    hm.width hm.height x z hx hz

/-- Sobel normal of the row-major vertex `w*z + x`. -/
theorem compute_normals_sobel_getElem (hm : HeightMap) (x z : ℕ)
    (hx : x < hm.width) (hz : z < hm.height) :
    (compute_normals_sobel hm)[hm.width * z + x]? =
      some (normalizeOrUp ⟨-sobelGx hm x z, 8 * hm.scale, -sobelGz hm x z⟩) := by
  rw [compute_normals_sobel]
  exact grid_getElem
    (fun xi zi => normalizeOrUp ⟨-sobelGx hm xi zi, 8 * hm.scale, -sobelGz hm xi zi⟩)
    hm.width hm.height x z hx hz

/-- Concrete flat 2x2 height map with unit scale, for the witness theorems. -/
def hmFlat2 : HeightMap := ⟨2, 2, 1, fun _ _ => 0⟩

/-- Concrete default-like builder configuration, for the witness theorems. -/
def builderAW : HeightMapMeshBuilder := ⟨1, NormalMethod.AreaWeighted⟩

/-- C3: for every heightmap with width ≥ 2 and height ≥ 2, the mesh produced by
`build` has exactly `width*height` vertices (positions, normals and uvs each of
that length), exactly `(width-1)*(height-1)*6` indices, and every index is
strictly less than `width*height`. -/
theorem build_counts (b : HeightMapMeshBuilder) (hm : HeightMap)
    (hw : 2 ≤ hm.width) (hh : 2 ≤ hm.height) :
    ∃ m : Mesh, b.build hm = some m ∧
      m.positions.length = hm.width * hm.height ∧
      m.normals.length = hm.width * hm.height ∧
      m.uvs.length = hm.width * hm.height ∧
      m.indices.length = (hm.width - 1) * (hm.height - 1) * 6 ∧
      ∀ i ∈ m.indices, i < hm.width * hm.height := by
  rw [HeightMapMeshBuilder.build, if_pos ⟨hw, hh⟩]
  refine ⟨_, rfl, buildPositions_length hm, ?_, buildUVs_length b hm,
    buildIndices_length _ _, buildIndices_lt _ _⟩
  cases hb : b.normal_method
  · exact normalsAreaWeighted_length hm
  · exact compute_normals_sobel_length hm

/-- Witness for `build_counts` at a concrete flat 2x2 map. -/
theorem build_counts_witness :
    2 ≤ hmFlat2.width ∧ 2 ≤ hmFlat2.height ∧
      (∃ m : Mesh, builderAW.build hmFlat2 = some m ∧
        m.positions.length = hmFlat2.width * hmFlat2.height ∧
        m.normals.length = hmFlat2.width * hmFlat2.height ∧
        m.uvs.length = hmFlat2.width * hmFlat2.height ∧
        m.indices.length = (hmFlat2.width - 1) * (hmFlat2.height - 1) * 6 ∧
        ∀ i ∈ m.indices, i < hmFlat2.width * hmFlat2.height) :=
  ⟨by decide, by decide, build_counts builderAW hmFlat2 (by decide) (by decide)⟩

/-- C8: calling `build` on a heightmap with either dimension below 2 aborts and
never returns a mesh (modelled as `none`), and for all heightmaps with
width ≥ 2 and height ≥ 2 the precondition check passes (a mesh is returned). -/
theorem build_requires_two_by_two (b : HeightMapMeshBuilder) (hm : HeightMap) :
    b.build hm = none ↔ hm.width < 2 ∨ hm.height < 2 := by
  constructor
  · intro hnone
    by_contra hcon
    push_neg at hcon
    rw [HeightMapMeshBuilder.build, if_pos ⟨by omega, by omega⟩] at hnone
    exact Option.noConfusion hnone
  · intro hlt
    rw [HeightMapMeshBuilder.build, if_neg (by omega)]

/-- C4: for every heightmap with width ≥ 2 and height ≥ 2 and every builder
configuration, the vertex at row-major index `z*width+x` of the built mesh has
position `(x*scale, get(x,z), z*scale)` and UV
`(x*scale/uv_tile_size, z*scale/uv_tile_size)`. -/
theorem build_vertex_position_uv (b : HeightMapMeshBuilder) (hm : HeightMap)
    (hw : 2 ≤ hm.width) (hh : 2 ≤ hm.height) (x z : ℕ)
    (hx : x < hm.width) (hz : z < hm.height) :
    ∃ m : Mesh, b.build hm = some m ∧
      m.positions[z * hm.width + x]? =
        some ⟨(x : ℝ) * hm.scale, hm.get x z, (z : ℝ) * hm.scale⟩ ∧
      m.uvs[z * hm.width + x]? =
        some ((x : ℝ) * hm.scale / b.uv_tile_size, (z : ℝ) * hm.scale / b.uv_tile_size) := by
  rw [HeightMapMeshBuilder.build, if_pos ⟨hw, hh⟩]
  have hcomm : z * hm.width + x = hm.width * z + x := by ring
  refine ⟨_, rfl, ?_, ?_⟩
  · rw [hcomm]
    exact buildPositions_getElem hm x z hx hz
  · rw [hcomm]
    exact buildUVs_getElem b hm x z hx hz

/-- Witness for `build_vertex_position_uv` at the flat 2x2 map, vertex (1, 0). -/
theorem build_vertex_position_uv_witness :
    2 ≤ hmFlat2.width ∧ 2 ≤ hmFlat2.height ∧ 1 < hmFlat2.width ∧ 0 < hmFlat2.height ∧
      (∃ m : Mesh, builderAW.build hmFlat2 = some m ∧
        m.positions[0 * hmFlat2.width + 1]? =
          some ⟨((1 : ℕ) : ℝ) * hmFlat2.scale, hmFlat2.get 1 0, ((0 : ℕ) : ℝ) * hmFlat2.scale⟩ ∧
        m.uvs[0 * hmFlat2.width + 1]? =
          some (((1 : ℕ) : ℝ) * hmFlat2.scale / builderAW.uv_tile_size,
            ((0 : ℕ) : ℝ) * hmFlat2.scale / builderAW.uv_tile_size)) :=
  ⟨by decide, by decide, by decide, by decide,
    build_vertex_position_uv builderAW hmFlat2 (by decide) (by decide) 1 0
      (by decide) (by decide)⟩

/-- C5: for every heightmap with width ≥ 2 and height ≥ 2, the index list
consists, quad by quad in row-major order, of the triangles `(tl, bl, tr)` and
`(tr, bl, br)` with `tl = z*w+x`, `tr = z*w+x+1`, `bl = (z+1)*w+x`,
`br = (z+1)*w+x+1`. -/
theorem build_quad_triangles (b : HeightMapMeshBuilder) (hm : HeightMap)
    (hw : 2 ≤ hm.width) (hh : 2 ≤ hm.height) (x z : ℕ)
    (hx : x < hm.width - 1) (hz : z < hm.height - 1) :
    ∃ m : Mesh, b.build hm = some m ∧
      m.indices.length = (hm.width - 1) * (hm.height - 1) * 6 ∧
      m.indices[(z * (hm.width - 1) + x) * 6]? = some (z * hm.width + x) ∧
      m.indices[(z * (hm.width - 1) + x) * 6 + 1]? = some ((z + 1) * hm.width + x) ∧
      m.indices[(z * (hm.width - 1) + x) * 6 + 2]? = some (z * hm.width + x + 1) ∧
      m.indices[(z * (hm.width - 1) + x) * 6 + 3]? = some (z * hm.width + x + 1) ∧
      m.indices[(z * (hm.width - 1) + x) * 6 + 4]? = some ((z + 1) * hm.width + x) ∧
      m.indices[(z * (hm.width - 1) + x) * 6 + 5]? = some ((z + 1) * hm.width + x + 1) := by
  rw [HeightMapMeshBuilder.build, if_pos ⟨hw, hh⟩]
  have h0 : (z * (hm.width - 1) + x) * 6 = (z * (hm.width - 1) + x) * 6 + 0 := rfl
  refine ⟨_, rfl, buildIndices_length _ _, ?_, ?_, ?_, ?_, ?_, ?_⟩
  · rw [h0, buildIndices_getElem hm.width hm.height x z 0 hx hz (by omega)]
    rfl
  · rw [buildIndices_getElem hm.width hm.height x z 1 hx hz (by omega)]
    rfl
  · rw [buildIndices_getElem hm.width hm.height x z 2 hx hz (by omega)]
    rfl
  · rw [buildIndices_getElem hm.width hm.height x z 3 hx hz (by omega)]
    rfl
  · rw [buildIndices_getElem hm.width hm.height x z 4 hx hz (by omega)]
    rfl
  · rw [buildIndices_getElem hm.width hm.height x z 5 hx hz (by omega)]
    rfl

/-- Witness for `build_quad_triangles` at the flat 2x2 map, quad (0, 0). -/
theorem build_quad_triangles_witness :
    2 ≤ hmFlat2.width ∧ 2 ≤ hmFlat2.height ∧
      0 < hmFlat2.width - 1 ∧ 0 < hmFlat2.height - 1 ∧
      (∃ m : Mesh, builderAW.build hmFlat2 = some m ∧
        m.indices.length = (hmFlat2.width - 1) * (hmFlat2.height - 1) * 6 ∧
        m.indices[(0 * (hmFlat2.width - 1) + 0) * 6]? = some (0 * hmFlat2.width + 0) ∧
        m.indices[(0 * (hmFlat2.width - 1) + 0) * 6 + 1]? = some ((0 + 1) * hmFlat2.width + 0) ∧
        m.indices[(0 * (hmFlat2.width - 1) + 0) * 6 + 2]? = some (0 * hmFlat2.width + 0 + 1) ∧
        m.indices[(0 * (hmFlat2.width - 1) + 0) * 6 + 3]? = some (0 * hmFlat2.width + 0 + 1) ∧
        m.indices[(0 * (hmFlat2.width - 1) + 0) * 6 + 4]? = some ((0 + 1) * hmFlat2.width + 0) ∧
        m.indices[(0 * (hmFlat2.width - 1) + 0) * 6 + 5]? =
          some ((0 + 1) * hmFlat2.width + 0 + 1)) :=
  ⟨by decide, by decide, by decide, by decide,
    build_quad_triangles builderAW hmFlat2 (by decide) (by decide) 0 0
      (by decide) (by decide)⟩

/-- Concrete 2x1 weight map for the witness theorems: pixel `i` has channel
values `4*i + c`. -/
def wmTwo : WeightMap := ⟨2, 1, [fun c => (c : ℕ), fun c => 4 + (c : ℕ)], rfl⟩

/-- C7: the texture packer produces a buffer of length exactly
`width*height*4` in which the byte at offset `4*(z*width+x)+c` equals channel
`c` of pixel `z*width+x`, for every in-range pixel and channel (R,G,B,A
order). -/
theorem splat_pack_bytes (wm : WeightMap) :
    (splatPack wm).length = wm.width * wm.height * 4 ∧
      ∀ (x z : ℕ) (c : Fin 4), x < wm.width → z < wm.height →
        (splatPack wm)[4 * (z * wm.width + x) + (c : ℕ)]? =
          some (wm.data.getD (z * wm.width + x) (fun _ => 0) c) := by
  constructor
  · rw [splatPack,
        length_flatMap_const (fun p : Pixel => [p 0, p 1, p 2, p 3]) 4 wm.data
          fun p _ => rfl,
        wm.hdata]
    ring
  · intro x z c hx hz
    have hlt : z * wm.width + x < wm.data.length := by
      rw [wm.hdata]
      exact rowMajor_lt hx hz
    rw [splatPack,
        getElem?_flatMap_const (fun p : Pixel => [p 0, p 1, p 2, p 3]) 4 (fun _ => 0)
          wm.data (z * wm.width + x) c.val (fun p _ => rfl) hlt c.isLt]
    rcases c with ⟨cv, hc⟩
    interval_cases cv <;> rfl

/-- Witness for `splat_pack_bytes` at a concrete 2x1 map, pixel 1, channel 2. -/
theorem splat_pack_bytes_witness :
    (splatPack wmTwo).length = wmTwo.width * wmTwo.height * 4 ∧
      (splatPack wmTwo)[4 * (0 * wmTwo.width + 1) + ((2 : Fin 4) : ℕ)]? =
        some (wmTwo.data.getD (0 * wmTwo.width + 1) (fun _ => 0) 2) :=
  ⟨(splat_pack_bytes wmTwo).1,
    (splat_pack_bytes wmTwo).2 1 0 2 (by decide) (by decide)⟩

/-- The horizontal Sobel gradient as the spec words it: the fixed kernel
`[[-1,0,1],[-2,0,2],[-1,0,1]]` applied to the 3x3 clamped neighborhood
(kernel row = `dz` in -1,0,1; kernel column = `dx` in -1,0,1).  Stated from
the spec sentence for comparison with the source embedding `sobelGx`. -/
def specSobelGx (hm : HeightMap) (xi zi : ℕ) : ℝ :=
  (-1) * sample hm xi zi (-1) (-1) + 0 * sample hm xi zi 0 (-1)
      + 1 * sample hm xi zi 1 (-1)
    + (-2) * sample hm xi zi (-1) 0 + 0 * sample hm xi zi 0 0
      + 2 * sample hm xi zi 1 0
    + (-1) * sample hm xi zi (-1) 1 + 0 * sample hm xi zi 0 1
      + 1 * sample hm xi zi 1 1

/-- The vertical Sobel gradient as the spec words it: the fixed kernel
`[[-1,-2,-1],[0,0,0],[1,2,1]]`.  Stated from the spec sentence for comparison
with the source embedding `sobelGz`. -/
def specSobelGz (hm : HeightMap) (xi zi : ℕ) : ℝ :=
  (-1) * sample hm xi zi (-1) (-1) + (-2) * sample hm xi zi 0 (-1)
      + (-1) * sample hm xi zi 1 (-1)
    + 0 * sample hm xi zi (-1) 0 + 0 * sample hm xi zi 0 0
      + 0 * sample hm xi zi 1 0
    + 1 * sample hm xi zi (-1) 1 + 2 * sample hm xi zi 0 1
      + 1 * sample hm xi zi 1 1

/-- The source gx expression equals the spec kernel sum. -/
theorem sobelGx_eq_spec (hm : HeightMap) (xi zi : ℕ) :
    sobelGx hm xi zi = specSobelGx hm xi zi := by
  rw [sobelGx, specSobelGx]
  ring

/-- The source gz expression equals the spec kernel sum. -/
theorem sobelGz_eq_spec (hm : HeightMap) (xi zi : ℕ) :
    sobelGz hm xi zi = specSobelGz hm xi zi := by
  rw [sobelGz, specSobelGz]
  ring

/-- C6: for every grid vertex, the Sobel strategy samples the 3x3 neighborhood
with indices clamped into `[0,width-1] x [0,height-1]` (never out of bounds),
computes the gradients with the fixed Sobel kernels, and outputs the
normalization of `(-gx, 8*scale, -gz)` with the `(0,1,0)` fallback. -/
theorem sobel_matches_kernel_spec (hm : HeightMap) (xi zi : ℕ)
    (hx : xi < hm.width) (hz : zi < hm.height) :
    (compute_normals_sobel hm)[hm.width * zi + xi]? =
        some (normalizeOrUp
          ⟨-specSobelGx hm xi zi, 8 * hm.scale, -specSobelGz hm xi zi⟩) ∧
      ∀ dx dz : ℤ, clampIdx ((xi : ℤ) + dx) hm.width < hm.width ∧
        clampIdx ((zi : ℤ) + dz) hm.height < hm.height := by
  constructor
  · rw [compute_normals_sobel_getElem hm xi zi hx hz, sobelGx_eq_spec, sobelGz_eq_spec]
  · intro dx dz
    exact ⟨clampIdx_lt _ _ (by omega), clampIdx_lt _ _ (by omega)⟩

/-- Witness for `sobel_matches_kernel_spec` at the flat 2x2 map, vertex (0,0). -/
theorem sobel_matches_kernel_spec_witness :
    0 < hmFlat2.width ∧ 0 < hmFlat2.height ∧
      ((compute_normals_sobel hmFlat2)[hmFlat2.width * 0 + 0]? =
          some (normalizeOrUp
            ⟨-specSobelGx hmFlat2 0 0, 8 * hmFlat2.scale, -specSobelGz hmFlat2 0 0⟩) ∧
        ∀ dx dz : ℤ, clampIdx (((0 : ℕ) : ℤ) + dx) hmFlat2.width < hmFlat2.width ∧
          clampIdx (((0 : ℕ) : ℤ) + dz) hmFlat2.height < hmFlat2.height) :=
  ⟨by decide, by decide, sobel_matches_kernel_spec hmFlat2 0 0 (by decide) (by decide)⟩

/-- Every Sobel normal is the normalization of some vector. -/
theorem mem_sobel_is_normalize (hm : HeightMap) :
    ∀ n ∈ compute_normals_sobel hm, ∃ v : Vec3, n = normalizeOrUp v := by
  intro n hn
  obtain ⟨xi, zi, hv⟩ := mem_compute_normals_sobel hm n hn
  exact ⟨_, hv⟩

/-- Any list all of whose members are normalizations satisfies the
normalize-or-default dichotomy at every position. -/
theorem normalizeOrUp_of_mem (l : List Vec3)
    (hl : ∀ n ∈ l, ∃ v : Vec3, n = normalizeOrUp v) (i : ℕ) (hi : i < l.length) :
    ∃ v : Vec3,
      (f32Epsilon < v.length ∧ l.getD i ⟨0, 1, 0⟩ = v.divScalar v.length) ∨
        (v.length ≤ f32Epsilon ∧ l.getD i ⟨0, 1, 0⟩ = ⟨0, 1, 0⟩) := by
  have hmem : l.getD i ⟨0, 1, 0⟩ ∈ l := by
    rw [List.getD_eq_getElem _ _ hi]
    exact List.getElem_mem hi
  obtain ⟨v, hv⟩ := hl _ hmem
  rcases normalizeOrUp_cases v with ⟨h1, h2⟩ | ⟨h1, h2⟩
  · exact ⟨v, Or.inl ⟨h1, by rw [hv, h2]⟩⟩
  · exact ⟨v, Or.inr ⟨h1, by rw [hv, h2]⟩⟩

/-- C9: for both normal strategies and every heightmap with width ≥ 2 and
height ≥ 2, every output normal is either the unnormalized vector divided by
its length (when that length exceeds machine epsilon) or exactly (0,1,0)
(when it does not), with one normal per vertex, indexed identically to
positions. -/
theorem normals_unit_or_up (b : HeightMapMeshBuilder) (hm : HeightMap)
    (hw : 2 ≤ hm.width) (hh : 2 ≤ hm.height) :
    ∃ m : Mesh, b.build hm = some m ∧
      m.normals.length = m.positions.length ∧
      m.positions.length = hm.width * hm.height ∧
      ∀ i, i < m.normals.length →
        ∃ v : Vec3,
          (f32Epsilon < v.length ∧ m.normals.getD i ⟨0, 1, 0⟩ = v.divScalar v.length) ∨
            (v.length ≤ f32Epsilon ∧ m.normals.getD i ⟨0, 1, 0⟩ = ⟨0, 1, 0⟩) := by
  rw [HeightMapMeshBuilder.build, if_pos ⟨hw, hh⟩]
  cases hb : b.normal_method with
  | AreaWeighted =>
    refine ⟨_, rfl, ?_, buildPositions_length hm, ?_⟩
    · show (normalsAreaWeighted hm).length = (buildPositions hm).length
      rw [normalsAreaWeighted_length, buildPositions_length]
    · intro i hi
      exact normalizeOrUp_of_mem _ (mem_normalsAreaWeighted hm) i hi
  | Sobel =>
    refine ⟨_, rfl, ?_, buildPositions_length hm, ?_⟩
    · show (compute_normals_sobel hm).length = (buildPositions hm).length
      rw [compute_normals_sobel_length, buildPositions_length]
    · intro i hi
      exact normalizeOrUp_of_mem _ (mem_sobel_is_normalize hm) i hi

/-- Witness for `normals_unit_or_up` at the flat 2x2 map. -/
theorem normals_unit_or_up_witness :
    2 ≤ hmFlat2.width ∧ 2 ≤ hmFlat2.height ∧
      (∃ m : Mesh, builderAW.build hmFlat2 = some m ∧
        m.normals.length = m.positions.length ∧
        m.positions.length = hmFlat2.width * hmFlat2.height ∧
        ∀ i, i < m.normals.length →
          ∃ v : Vec3,
            (f32Epsilon < v.length ∧ m.normals.getD i ⟨0, 1, 0⟩ = v.divScalar v.length) ∨
              (v.length ≤ f32Epsilon ∧ m.normals.getD i ⟨0, 1, 0⟩ = ⟨0, 1, 0⟩)) :=
  ⟨by decide, by decide, normals_unit_or_up builderAW hmFlat2 (by decide) (by decide)⟩

/-- C10: when the scale is strictly positive, every normal produced by the
Sobel strategy has a strictly positive y-component. -/
theorem sobel_normals_point_up (hm : HeightMap) (hs : 0 < hm.scale) :
    ∀ i, i < (compute_normals_sobel hm).length →
      0 < ((compute_normals_sobel hm).getD i ⟨0, 1, 0⟩).y := by
  intro i hi
  have hmem : (compute_normals_sobel hm).getD i ⟨0, 1, 0⟩ ∈ compute_normals_sobel hm := by
    rw [List.getD_eq_getElem _ _ hi]
    exact List.getElem_mem hi
  obtain ⟨xi, zi, hv⟩ := mem_compute_normals_sobel hm _ hmem
  rw [hv]
  apply normalizeOrUp_y_pos
  show 0 < 8 * hm.scale
  linarith

/-- Witness for `sobel_normals_point_up` at the flat 2x2 unit-scale map. -/
theorem sobel_normals_point_up_witness :
    0 < hmFlat2.scale ∧ 0 < ((compute_normals_sobel hmFlat2).getD 0 ⟨0, 1, 0⟩).y :=
  ⟨by rw [show hmFlat2.scale = (1 : ℝ) from rfl]; norm_num,
    sobel_normals_point_up hmFlat2
      (by rw [show hmFlat2.scale = (1 : ℝ) from rfl]; norm_num) 0
      (by rw [compute_normals_sobel_length]; decide)⟩

/-- Concrete 1x1 weight map for the sync theorem. -/
def wmZero : WeightMap := ⟨1, 1, [fun _ => 0], rfl⟩

/-- C1, behavior of the code at the failing input: when the settings are dirty
but the splat texture handle is not yet present in the image assets,
`sync_splat_texture` clears the dirty flag anyway (it stores `dirty = false`
before the handle lookup) and uploads nothing, so the upload is NOT retried on
the next invocation — the spec requires the dirty flag to stay set here. -/
theorem sync_clears_dirty_without_image :
    (sync_splat_texture ⟨wmZero, true⟩ none).1.dirty = false ∧
      (sync_splat_texture ⟨wmZero, true⟩ none).2 = none :=
  ⟨rfl, rfl⟩

/-- C2, behavior of the code: `splat_to_image` sets the `ClampToEdge` address
mode on both axes, not the `Repeat` mode that the claim (and the source's own
doc comments) state. -/
theorem splat_to_image_clamps_not_repeat (wm : WeightMap) :
    (splat_to_image wm).address_mode_u = ImageAddressMode.ClampToEdge ∧
      (splat_to_image wm).address_mode_v = ImageAddressMode.ClampToEdge ∧
      ImageAddressMode.ClampToEdge ≠ ImageAddressMode.Repeat :=
  ⟨rfl, rfl, by decide⟩
